import Mathlib

/-!
Verification of the EDAFlow pipeline (src/EDAFlow.py): a chain-of-responsibility
data-preparation pipeline with three handlers — OpenCsvHandler (load a CSV into
the shared context under key "df"), CleanDataHandler (drop duplicate rows, then
impute missing values column by column: mode for object columns, median for the
rest), and SweetvizHandler (render a report).  The tabular library's operations
(drop_duplicates keep-first, Series.mode returning modes sorted ascending,
Series.median with linear interpolation, fillna) are embedded as executable
Lean functions on an explicit table type; the mutable context dictionary is an
association list, and handler exceptions are `Except` values paired with the
post-state of the context.
-/

/-- A single table cell: missing (NaN/None), a string, or a number.
`pandas` treats NaN as equal to NaN inside `drop_duplicates`, which matches
plain equality on this type. -/
inductive Cell : Type
  | null : Cell
  | str : String → Cell
  | num : ℚ → Cell
deriving DecidableEq

/-- Column dtype as the code observes it: `df[col].dtype == 'object'` selects
the mode branch, everything else takes the median branch. -/
inductive Dtype : Type
  | obj : Dtype
  | numeric : Dtype
deriving DecidableEq

/-- A DataFrame: a dtype per column and a list of rows. -/
structure Table : Type where
  dtypes : List Dtype
  rows : List (List Cell)
deriving DecidableEq

/-- A cell is admissible for a dtype (NaN is admissible everywhere). -/
def cellOk : Dtype → Cell → Bool
  | _, Cell.null => true
  | Dtype.obj, Cell.str _ => true
  | Dtype.numeric, Cell.num _ => true
  | _, _ => false

/-- A row is rectangular and dtype-consistent. -/
def rowOk (dts : List Dtype) (r : List Cell) : Bool :=
  (r.length == dts.length) &&
    (List.range dts.length).all (fun j => cellOk (dts.getD j Dtype.numeric) (r.getD j Cell.null))

/-- Well-formed table: every row is rectangular and dtype-consistent, mirroring
what an actual DataFrame guarantees by construction. -/
def WF (t : Table) : Prop :=
  t.rows.all (rowOk t.dtypes) = true

instance (t : Table) : Decidable (WF t) := by
  unfold WF; infer_instance

/-- `df.drop_duplicates(keep='first')` in accumulator form: keep a row if it has
not been seen before. -/
def dedupAux {α : Type} [DecidableEq α] : List α → List α → List α
  | [], _ => []
  | x :: xs, seen => if x ∈ seen then dedupAux xs seen else x :: dedupAux xs (x :: seen)

/-- Keep the first occurrence of each duplicate group. -/
def dedupFirst {α : Type} [DecidableEq α] (l : List α) : List α :=
  dedupAux l []

/-- `df.drop_duplicates(inplace=True)`. -/
def dedupTable (t : Table) : Table :=
  { t with rows := dedupFirst t.rows }

/-- Column `j` of the table, as `df[col]` reads it. -/
def colCells (t : Table) (j : Nat) : List Cell :=
  t.rows.map (fun r => r.getD j Cell.null)

/-- The non-missing string values of a column (what `mode()` ranges over,
since `dropna=True` is the default). -/
def nonNullStr (cells : List Cell) : List String :=
  cells.filterMap (fun c => match c with | Cell.str v => some v | _ => none)

/-- The non-missing numeric values of a column (what `median()` ranges over,
since `skipna=True` is the default). -/
def nonNullNum (cells : List Cell) : List ℚ :=
  cells.filterMap (fun c => match c with | Cell.num v => some v | _ => none)

/-- Lexicographic comparison of character lists by code point, an executable
form of the list order underlying `String`'s order. -/
def listCharLtb : List Char → List Char → Bool
  | [], [] => false
  | [], _ :: _ => true
  | _ :: _, [] => false
  | a :: as, b :: bs =>
    if a.val < b.val then true else if b.val < a.val then false else listCharLtb as bs

/-- Executable string comparison, provably equivalent to `String`'s `<`
(the order `numpy`/`pandas` use to sort Python strings by code point). -/
def strLtb (a b : String) : Bool :=
  listCharLtb a.data b.data

/-- One comparison step of the mode computation: keep whichever of `a`, `b`
occurs more often in `l`; on equal counts keep the smaller string, because
`Series.mode()` returns the tied modes sorted ascending and the code takes
element `[0]`. -/
def pick (l : List String) (a b : String) : String :=
  if l.count a < l.count b then b
  else if l.count b < l.count a then a
  else if strLtb b a then b else a

/-- `df[col].mode()[0]`: the most frequent value; ties go to the smallest value
in ascending order.  `none` when there is no non-missing value at all, in which
case the code's `mode()[0]` raises. -/
def modeCode (l : List String) : Option String :=
  match l with
  | [] => none
  | x :: xs => some (xs.foldl (pick (x :: xs)) x)

/-- `df[col].median()`: sort the non-missing values; middle element for odd
counts, mean of the two middle elements for even counts; `NaN` (here `none`)
for an empty column. -/
def medianCode (l : List ℚ) : Option ℚ :=
  let s := List.insertionSort (fun a b : ℚ => a ≤ b) l
  let n := s.length
  if n = 0 then none
  else if n % 2 = 1 then some (s.getD (n / 2) 0)
  else some ((s.getD (n / 2 - 1) 0 + s.getD (n / 2) 0) / 2)

/-- `fillna(v)` on a list of cells. -/
def fillCells (cells : List Cell) (v : Cell) : List Cell :=
  cells.map (fun c => if c = Cell.null then v else c)

/-- `fillna(v, inplace=True)` on one row position. -/
def fillRow (j : Nat) (v : Cell) (r : List Cell) : List Cell :=
  if r.getD j Cell.null = Cell.null then r.set j v else r

/-- `df[col].fillna(v, inplace=True)`: replace the missing entries of column
`j` by `v`. -/
def fillColWith (t : Table) (j : Nat) (v : Cell) : Table :=
  { t with rows := t.rows.map (fillRow j v) }

/-- One iteration of the imputation loop body for column `j`:
`if df[col].isnull().any(): fillna(mode()[0]) or fillna(median())`.
The error value is the index of an object column whose `mode()` is empty
(`mode()[0]` raises there). -/
def imputeStep (t : Table) (j : Nat) : Except Nat Table :=
  let cells := colCells t j
  if cells.any (fun x => x = Cell.null) then
    match t.dtypes.getD j Dtype.numeric with
    | Dtype.obj =>
      match modeCode (nonNullStr cells) with
      | none => Except.error j
      | some m => Except.ok (fillColWith t j (Cell.str m))
    | Dtype.numeric =>
      match medianCode (nonNullNum cells) with
      | none => Except.ok t
      | some m => Except.ok (fillColWith t j (Cell.num m))
  else Except.ok t

/-- The `for col in df.columns` loop.  Returns the final result together with
the table state reached when an exception interrupts the loop (the in-place
mutations before the raise are kept, as in the Python original). -/
def imputeGo : Table → List Nat → Except Nat Table × Table
  | t, [] => (Except.ok t, t)
  | t, j :: js =>
    match imputeStep t j with
    | Except.ok t2 => imputeGo t2 js
    | Except.error e => (Except.error e, t)

/-- The full body of `CleanDataHandler.handle` on the table: deduplicate, then
impute every column; second component is the table state at the end of the run
even when the loop raised. -/
def cleanTableFull (t : Table) : Except Nat Table × Table :=
  imputeGo (dedupTable t) (List.range (dedupTable t).dtypes.length)

/-- The cleaned table (or the index of the offending column). -/
def cleanTable (t : Table) : Except Nat Table :=
  (cleanTableFull t).1

/-- A value stored in the shared context dictionary: Python `None`, a
DataFrame, or some other object. -/
inductive CtxVal : Type
  | vnull : CtxVal
  | vtable : Table → CtxVal
  | vother : String → CtxVal
deriving DecidableEq

/-- The mutable `data` dictionary threaded through the chain. -/
def Context : Type := List (String × CtxVal)

instance : DecidableEq Context := by
  unfold Context; infer_instance

/-- `data.get(key)`: the first binding of the key, if any. -/
def ctxGet : Context → String → Option CtxVal
  | [], _ => none
  | (k, v) :: rest, key => if k = key then some v else ctxGet rest key

/-- `data[key] = v`: overwrite the existing binding or append a new one. -/
def ctxSet : Context → String → CtxVal → Context
  | [], key, v => [(key, v)]
  | (k, w) :: rest, key, v =>
    if k = key then (k, v) :: rest else (k, w) :: ctxSet rest key v

/-- The error taxonomy raised by the pipeline. -/
inductive Err : Type
  | fileNotFound : String → String → Err
  | missingInputClean : Err
  | missingInputReport : Err
  | notATable : Err
  | emptyMode : Nat → Err
  | chainNotBuilt : Err
deriving DecidableEq

/-- `os.path.join(dir, name)`. -/
def joinPath (dir name : String) : String :=
  dir ++ "/" ++ name

/-- The observable file-system effects of a run. -/
inductive IoEvent : Type
  | readCsv : String → IoEvent
  | writeReport : String → IoEvent
deriving DecidableEq

/-- The ambient file system, seen through the two operations the code uses:
`os.path.exists` and `pd.read_csv`. -/
structure FS : Type where
  pathExists : String → Bool
  readCsv : String → Table

/-- Body of `OpenCsvHandler.handle` before the forward: check existence, read
the CSV into `data["df"]`.  Result, post-state of the dictionary, and the file
reads performed. -/
def OpenCsvHandler.work (fs : FS) (file_path file_name : String) (c : Context) :
    Except Err Context × Context × List IoEvent :=
  let p := joinPath file_path file_name
  if fs.pathExists p then
    let c2 := ctxSet c "df" (CtxVal.vtable (fs.readCsv p))
    (Except.ok c2, c2, [IoEvent.readCsv p])
  else (Except.error (Err.fileNotFound file_name file_path), c, [])

/-- Body of `CleanDataHandler.handle` before the forward: raise when
`data.get("df")` is `None`, otherwise deduplicate and impute in place and
store the result back under `"df"`.  Second component is the post-state of
the dictionary (the in-place mutations survive an exception in the loop). -/
def CleanDataHandler.work (c : Context) : Except Err Context × Context :=
  match ctxGet c "df" with
  | none => (Except.error Err.missingInputClean, c)
  | some CtxVal.vnull => (Except.error Err.missingInputClean, c)
  | some (CtxVal.vother _) => (Except.error Err.notATable, c)
  | some (CtxVal.vtable t) =>
    match cleanTableFull t with
    | (Except.ok t2, _) =>
      (Except.ok (ctxSet c "df" (CtxVal.vtable t2)), ctxSet c "df" (CtxVal.vtable t2))
    | (Except.error j, tmid) =>
      (Except.error (Err.emptyMode j), ctxSet c "df" (CtxVal.vtable tmid))

/-- Body of `SweetvizHandler.handle` before the forward: raise when
`data.get("df")` is `None`, otherwise render the report to
`output_dir/sweetviz_report.html` and leave the dictionary unchanged. -/
def SweetvizHandler.work (output_dir : String) (c : Context) :
    Except Err Context × Context × List IoEvent :=
  match ctxGet c "df" with
  | none => (Except.error Err.missingInputReport, c, [])
  | some CtxVal.vnull => (Except.error Err.missingInputReport, c, [])
  | some (CtxVal.vother _) => (Except.error Err.notATable, c, [])
  | some (CtxVal.vtable _) =>
    (Except.ok c, c, [IoEvent.writeReport (joinPath output_dir "sweetviz_report.html")])

/-- The three concrete handler kinds with their construction-time arguments. -/
inductive Stage : Type
  | openCsv : String → String → Stage
  | cleanData : Stage
  | sweetviz : String → Stage
deriving DecidableEq

/-- A stage's own work, uniformly: result, dictionary post-state, I/O trace. -/
def stageWork (fs : FS) : Stage → Context → Except Err Context × Context × List IoEvent
  | Stage.openCsv d n, c => OpenCsvHandler.work fs d n c
  | Stage.cleanData, c =>
    match CleanDataHandler.work c with
    | (r, c1) => (r, c1, [])
  | Stage.sweetviz d, c => SweetvizHandler.work d c

/-- `Handler.handle`: do the stage's own work, then
`return self.next_handler.handle(data)` when a successor exists, else return
the data.  The successor chain is the tail of the list; an exception
propagates unmodified and stops the chain. -/
def Handler.handle (fs : FS) : List Stage → Context → Except Err Context × Context × List IoEvent
  | [], c => (Except.ok c, c, [])
  | s :: rest, c =>
    match stageWork fs s c with
    | (Except.ok c2, _, tr) =>
      match Handler.handle fs rest c2 with
      | (r, c3, tr2) => (r, c3, tr ++ tr2)
    | (Except.error e, c1, tr) => (Except.error e, c1, tr)

/-- The pipeline configuration record. -/
structure Config : Type where
  datasets_dir : String
  file_name : String
  output_dir : String
deriving DecidableEq

/-- `EDAFlow`: configuration plus the (initially absent) chain. -/
structure EDAFlow : Type where
  config : Config
  chain : Option (List Stage)

/-- `EDAFlow.build_chain`: OpenCsv → CleanData → Sweetviz. -/
def EDAFlow.build_chain (e : EDAFlow) : EDAFlow :=
  { e with chain := some [Stage.openCsv e.config.datasets_dir e.config.file_name,
      Stage.cleanData, Stage.sweetviz e.config.output_dir] }

/-- `EDAFlow.execute`: raise `ChainNotBuilt` when the chain is absent,
otherwise run the head handler on a fresh empty dictionary.  Returns the
chain's result and the I/O trace of the run. -/
def EDAFlow.execute (fs : FS) (e : EDAFlow) : Except Err Context × List IoEvent :=
  match e.chain with
  | none => (Except.error Err.chainNotBuilt, [])
  | some ch =>
    match Handler.handle fs ch ([] : Context) with
    | (r, _, tr) => (r, tr)

/-- The relation between a column before the imputation loop visits it and
after: if the column has missing entries, an object column is filled with its
(code) mode, a numeric column is filled with its median — or left alone when
every entry is missing; a column without missing entries is left alone. -/
def colRel (dt : Dtype) (cells newCells : List Cell) : Prop :=
  if cells.any (fun x => x = Cell.null) = true then
    match dt with
    | Dtype.obj =>
      ∃ m, modeCode (nonNullStr cells) = some m ∧ newCells = fillCells cells (Cell.str m)
    | Dtype.numeric =>
      (nonNullNum cells = [] ∧ newCells = cells) ∨
      ∃ m, medianCode (nonNullNum cells) = some m ∧ newCells = fillCells cells (Cell.num m)
  else newCells = cells

/-- Modelled from the spec: "fill missing entries with the column's most
frequent value (mode; tie-break: first-encountered value among ties)" — the
first value of the column whose count is at least every other value's count.
Used only to compare the spec's tie-break with the code's. -/
def modeFirstEncountered (l : List String) : Option String :=
  l.find? (fun v => l.all (fun w => l.count w ≤ l.count v))

/-! ### Concrete tables and fixtures used by the claim theorems -/

/-- A numeric column `[1, 2, 3, null]` (spec median example, odd count). -/
def tableMedianOdd : Table :=
  Table.mk [Dtype.numeric] [[Cell.num 1], [Cell.num 2], [Cell.num 3], [Cell.null]]

/-- `tableMedianOdd` after cleaning: the null became the median `2`. -/
def tableMedianOddOut : Table :=
  Table.mk [Dtype.numeric] [[Cell.num 1], [Cell.num 2], [Cell.num 3], [Cell.num 2]]

/-- A numeric column `[1, 2, 3, 4, null]` (spec median example, even count). -/
def tableMedianEven : Table :=
  Table.mk [Dtype.numeric]
    [[Cell.num 1], [Cell.num 2], [Cell.num 3], [Cell.num 4], [Cell.null]]

/-- `tableMedianEven` after cleaning: the null became the median `5/2`. -/
def tableMedianEvenOut : Table :=
  Table.mk [Dtype.numeric]
    [[Cell.num 1], [Cell.num 2], [Cell.num 3], [Cell.num 4], [Cell.num (5 / 2)]]

/-- Three numeric columns; rows `[1, null, null]` and `[1, 5, null]`.  After
cleaning, column 1 is filled with 5, making the two rows identical, and
column 2 (entirely null) keeps its missing values. -/
def tableCleanCex : Table :=
  Table.mk [Dtype.numeric, Dtype.numeric, Dtype.numeric]
    [[Cell.num 1, Cell.null, Cell.null], [Cell.num 1, Cell.num 5, Cell.null]]

/-- `tableCleanCex` after cleaning: duplicate rows and an all-null column. -/
def tableCleanCexOut : Table :=
  Table.mk [Dtype.numeric, Dtype.numeric, Dtype.numeric]
    [[Cell.num 1, Cell.num 5, Cell.null], [Cell.num 1, Cell.num 5, Cell.null]]

/-- A one-object-column table whose clean run succeeds. -/
def tableC1W : Table :=
  Table.mk [Dtype.obj] [[Cell.str "a"], [Cell.null]]

/-- `tableC1W` after cleaning. -/
def tableC1WOut : Table :=
  Table.mk [Dtype.obj] [[Cell.str "a"], [Cell.str "a"]]

/-- An object column with the tie `b, b, a, a` and a null; a numeric column
keeps the rows distinct under deduplication. -/
def tableModeTie : Table :=
  Table.mk [Dtype.obj, Dtype.numeric]
    [[Cell.str "b", Cell.num 1], [Cell.str "b", Cell.num 2], [Cell.str "a", Cell.num 3],
      [Cell.str "a", Cell.num 4], [Cell.null, Cell.num 5]]

/-- `tableModeTie` after cleaning: the null is filled with `"a"`, the smaller
of the two tied modes, not with the first-encountered `"b"`. -/
def tableModeTieOut : Table :=
  Table.mk [Dtype.obj, Dtype.numeric]
    [[Cell.str "b", Cell.num 1], [Cell.str "b", Cell.num 2], [Cell.str "a", Cell.num 3],
      [Cell.str "a", Cell.num 4], [Cell.str "a", Cell.num 5]]

/-- An object column `a, b, null`: concrete input for the mode-fill claim. -/
def tableC2W : Table :=
  Table.mk [Dtype.obj] [[Cell.str "a"], [Cell.str "b"], [Cell.null]]

/-- `tableC2W` after cleaning (tie between `a` and `b` goes to `a`). -/
def tableC2WOut : Table :=
  Table.mk [Dtype.obj] [[Cell.str "a"], [Cell.str "b"], [Cell.str "a"]]

/-- Two numeric columns; imputation of the second column turns row 0 into a
copy of row 1, so cleaning its own output drops a row. -/
def tableIdem : Table :=
  Table.mk [Dtype.numeric, Dtype.numeric]
    [[Cell.num 1, Cell.null], [Cell.num 1, Cell.num 5]]

/-- `tableIdem` after one clean: two identical rows. -/
def tableIdemOnce : Table :=
  Table.mk [Dtype.numeric, Dtype.numeric]
    [[Cell.num 1, Cell.num 5], [Cell.num 1, Cell.num 5]]

/-- `tableIdem` after two cleans: the reintroduced duplicate is gone. -/
def tableIdemTwice : Table :=
  Table.mk [Dtype.numeric, Dtype.numeric] [[Cell.num 1, Cell.num 5]]

/-- A clean table (no nulls, no duplicates): fixed point of cleaning. -/
def tableC7W : Table :=
  Table.mk [Dtype.numeric] [[Cell.num 1], [Cell.num 2]]

/-- A file system on which every path exists and every CSV parses to the
empty table. -/
def fsAll : FS :=
  FS.mk (fun _ => true) (fun _ => Table.mk [] [])

/-- A context holding the empty table under `"df"`. -/
def ctxDf : Context :=
  [("df", CtxVal.vtable (Table.mk [] []))]

/-- A context with a single unrelated binding. -/
def ctxOther : Context :=
  [("x", CtxVal.vnull)]

/-! ### Generic list helpers -/

theorem getD_set_self {α : Type} : ∀ (r : List α) (j : Nat) (v d : α),
    j < r.length → (r.set j v).getD j d = v
  | [], _, _, _, h => absurd h (by simp)
  | _ :: _, 0, _, _, _ => rfl
  | _ :: r, j + 1, v, d, h => getD_set_self r j v d (Nat.lt_of_succ_lt_succ h)

theorem getD_set_of_ne {α : Type} : ∀ (r : List α) (j k : Nat) (v d : α),
    k ≠ j → (r.set j v).getD k d = r.getD k d
  | [], _, _, _, _, _ => rfl
  | _ :: _, 0, 0, _, _, h => absurd rfl h
  | _ :: _, 0, _ + 1, _, _, _ => rfl
  | _ :: _, _ + 1, 0, _, _, _ => rfl
  | _ :: r, j + 1, k + 1, v, d, h =>
    getD_set_of_ne r j k v d (fun hk => h (by omega))

/-! ### Deduplication: keep-first semantics -/

theorem mem_of_mem_dedupAux {α : Type} [DecidableEq α] {a : α} :
    ∀ (l seen : List α), a ∈ dedupAux l seen → a ∈ l := by
  intro l
  induction l with
  | nil => intro seen h; simp [dedupAux] at h
  | cons x xs ih =>
    intro seen h
    unfold dedupAux at h
    split at h
    · exact List.mem_cons_of_mem x (ih seen h)
    · rcases List.mem_cons.mp h with h1 | h1
      · exact h1 ▸ List.mem_cons_self x xs
      · exact List.mem_cons_of_mem x (ih (x :: seen) h1)

theorem nodup_dedupAux {α : Type} [DecidableEq α] :
    ∀ (l seen : List α), (dedupAux l seen).Nodup ∧ ∀ a ∈ dedupAux l seen, a ∉ seen := by
  intro l
  induction l with
  | nil => intro seen; simp [dedupAux]
  | cons x xs ih =>
    intro seen
    unfold dedupAux
    split
    · exact ih seen
    · rename_i hx
      rcases ih (x :: seen) with ⟨hnd, hout⟩
      refine ⟨List.nodup_cons.mpr ⟨fun hmem => ?_, hnd⟩, ?_⟩
      · exact hout x hmem (List.mem_cons_self x seen)
      · intro a ha
        rcases List.mem_cons.mp ha with h1 | h1
        · exact h1 ▸ hx
        · exact fun hseen => hout a h1 (List.mem_cons_of_mem x hseen)

theorem dedupAux_eq_self {α : Type} [DecidableEq α] :
    ∀ (l seen : List α), l.Nodup → (∀ a ∈ l, a ∉ seen) → dedupAux l seen = l := by
  intro l
  induction l with
  | nil => intro seen _ _; rfl
  | cons x xs ih =>
    intro seen hnd hout
    unfold dedupAux
    rcases List.nodup_cons.mp hnd with ⟨hx, hxs⟩
    rw [if_neg (hout x (List.mem_cons_self x xs))]
    congr 1
    refine ih (x :: seen) hxs ?_
    intro a ha hmem
    rcases List.mem_cons.mp hmem with h1 | h1
    · exact hx (h1 ▸ ha)
    · exact hout a (List.mem_cons_of_mem x ha) h1

theorem dedupFirst_nodup {α : Type} [DecidableEq α] (l : List α) : (dedupFirst l).Nodup :=
  (nodup_dedupAux l []).1

theorem dedupFirst_eq_self {α : Type} [DecidableEq α] {l : List α} (h : l.Nodup) :
    dedupFirst l = l :=
  dedupAux_eq_self l [] h (by simp)

theorem mem_of_mem_dedupFirst {α : Type} [DecidableEq α] {a : α} {l : List α}
    (h : a ∈ dedupFirst l) : a ∈ l :=
  mem_of_mem_dedupAux l [] h

/-! ### Well-formedness -/

theorem rowOk_iff {dts : List Dtype} {r : List Cell} :
    rowOk dts r = true ↔ r.length = dts.length ∧
      ∀ j, j < dts.length → cellOk (dts.getD j Dtype.numeric) (r.getD j Cell.null) = true := by
  simp [rowOk, List.all_eq_true, List.mem_range]

theorem WF_iff {t : Table} :
    WF t ↔ ∀ r ∈ t.rows, rowOk t.dtypes r = true := by
  simp [WF, List.all_eq_true]

theorem WF_dedupTable {t : Table} (h : WF t) : WF (dedupTable t) := by
  rw [WF_iff] at h ⊢
  intro r hr
  exact h r (mem_of_mem_dedupFirst hr)

theorem rowOk_fillRow {dts : List Dtype} {r : List Cell} {j : Nat} {v : Cell}
    (h : rowOk dts r = true) (hj : j < dts.length)
    (hv : cellOk (dts.getD j Dtype.numeric) v = true) :
    rowOk dts (fillRow j v r) = true := by
  rcases rowOk_iff.mp h with ⟨hlen, hcells⟩
  unfold fillRow
  split
  · rw [rowOk_iff]
    constructor
    · rw [List.length_set]; exact hlen
    · intro k hk
      by_cases hkj : k = j
      · subst hkj
        rw [getD_set_self r k v Cell.null (hlen ▸ hk)]
        exact hv
      · rw [getD_set_of_ne r j k v Cell.null hkj]
        exact hcells k hk
  · exact h

theorem WF_fillColWith {t : Table} {j : Nat} {v : Cell} (h : WF t)
    (hj : j < t.dtypes.length) (hv : cellOk (t.dtypes.getD j Dtype.numeric) v = true) :
    WF (fillColWith t j v) := by
  rw [WF_iff] at h ⊢
  intro r hr
  rcases List.mem_map.mp hr with ⟨r0, hr0, rfl⟩
  exact rowOk_fillRow (h r0 hr0) hj hv

theorem WF_row_length {t : Table} (h : WF t) {r : List Cell} (hr : r ∈ t.rows) :
    r.length = t.dtypes.length :=
  (rowOk_iff.mp (WF_iff.mp h r hr)).1

theorem colCells_cellOk {t : Table} (hwf : WF t) {j : Nat} (hj : j < t.dtypes.length) :
    ∀ c ∈ colCells t j, cellOk (t.dtypes.getD j Dtype.numeric) c = true := by
  intro c hc
  rcases List.mem_map.mp hc with ⟨r, hr, rfl⟩
  exact (rowOk_iff.mp (WF_iff.mp hwf r hr)).2 j hj

/-! ### Mode: most frequent value, ties to the smallest in ascending order -/

theorem listCharLtb_iff : ∀ (as bs : List Char),
    listCharLtb as bs = true ↔ List.Lex (fun x y : Char => x < y) as bs := by
  intro as
  induction as with
  | nil =>
    intro bs
    cases bs with
    | nil =>
      constructor
      · intro h; exact absurd h (by simp [listCharLtb])
      · intro h; exact absurd h (List.Lex.not_nil_right _ _)
    | cons b bs =>
      constructor
      · intro _; exact List.Lex.nil
      · intro _; rfl
  | cons a as ih =>
    intro bs
    cases bs with
    | nil =>
      constructor
      · intro h; exact absurd h (by simp [listCharLtb])
      · intro h; exact absurd h (List.Lex.not_nil_right _ _)
    | cons b bs =>
      unfold listCharLtb
      by_cases h1 : a.val < b.val
      · rw [if_pos h1]
        constructor
        · intro _; exact List.Lex.rel h1
        · intro _; rfl
      · rw [if_neg h1]
        by_cases h2 : b.val < a.val
        · rw [if_pos h2]
          constructor
          · intro h; exact absurd h (by simp)
          · intro h
            cases h with
            | cons h3 => exact absurd h2 h1
            | rel h3 => exact absurd h3 h1
        · rw [if_neg h2]
          have hab : a = b := Char.le_antisymm (le_of_not_lt h2) (le_of_not_lt h1)
          subst hab
          exact (ih bs).trans (List.Lex.cons_iff (r := fun x y : Char => x < y)).symm

theorem strLtb_iff {a b : String} : strLtb a b = true ↔ a < b := by
  rw [String.lt_iff_toList_lt]
  exact listCharLtb_iff a.data b.data

theorem pick_cases (l : List String) (a b : String) : pick l a b = a ∨ pick l a b = b := by
  unfold pick
  split
  · exact Or.inr rfl
  · split
    · exact Or.inl rfl
    · split
      · exact Or.inr rfl
      · exact Or.inl rfl

theorem count_le_pick_left (l : List String) (a b : String) :
    l.count a ≤ l.count (pick l a b) := by
  unfold pick
  split
  · omega
  · split
    · exact Nat.le_refl _
    · split <;> omega

theorem count_le_pick_right (l : List String) (a b : String) :
    l.count b ≤ l.count (pick l a b) := by
  unfold pick
  split
  · exact Nat.le_refl _
  · split
    · omega
    · split <;> omega

theorem pick_tie_left (l : List String) (a b : String)
    (h : l.count a = l.count (pick l a b)) : pick l a b ≤ a := by
  unfold pick at h ⊢
  by_cases h1 : l.count a < l.count b
  · rw [if_pos h1] at h ⊢; omega
  · rw [if_neg h1] at h ⊢
    by_cases h2 : l.count b < l.count a
    · rw [if_pos h2]
    · rw [if_neg h2] at h ⊢
      by_cases h3 : strLtb b a = true
      · rw [if_pos h3]; exact le_of_lt (strLtb_iff.mp h3)
      · rw [if_neg h3]

theorem pick_tie_right (l : List String) (a b : String)
    (h : l.count b = l.count (pick l a b)) : pick l a b ≤ b := by
  unfold pick at h ⊢
  by_cases h1 : l.count a < l.count b
  · rw [if_pos h1]
  · rw [if_neg h1] at h ⊢
    by_cases h2 : l.count b < l.count a
    · rw [if_pos h2] at h ⊢; omega
    · rw [if_neg h2] at h ⊢
      by_cases h3 : strLtb b a = true
      · rw [if_pos h3]
      · rw [if_neg h3]
        exact le_of_not_lt (fun hlt => h3 (strLtb_iff.mpr hlt))

theorem foldl_pick_spec (l : List String) :
    ∀ (ys : List String) (a : String),
      (ys.foldl (pick l) a = a ∨ ys.foldl (pick l) a ∈ ys) ∧
      ∀ v, (v = a ∨ v ∈ ys) →
        l.count v ≤ l.count (ys.foldl (pick l) a) ∧
        (l.count v = l.count (ys.foldl (pick l) a) → ys.foldl (pick l) a ≤ v) := by
  intro ys
  induction ys with
  | nil =>
    intro a
    refine ⟨Or.inl rfl, ?_⟩
    intro v hv
    rcases hv with rfl | hv
    · exact ⟨Nat.le_refl _, fun _ => le_refl _⟩
    · simp at hv
  | cons y ys ih =>
    intro a
    have hfold : (y :: ys).foldl (pick l) a = ys.foldl (pick l) (pick l a y) := rfl
    rcases ih (pick l a y) with ⟨hmem, hbest⟩
    constructor
    · rw [hfold]
      rcases hmem with heq | hin
      · rcases pick_cases l a y with hp | hp
        · exact Or.inl (heq.trans hp)
        · rw [heq, hp]; exact Or.inr (List.mem_cons_self y ys)
      · exact Or.inr (List.mem_cons_of_mem y hin)
    · intro v hv
      rw [hfold]
      rcases hv with rfl | hv
      · -- v is the initial accumulator
        have h1 := count_le_pick_left l v y
        rcases hbest (pick l v y) (Or.inl rfl) with ⟨h2, h3⟩
        refine ⟨Nat.le_trans h1 h2, ?_⟩
        intro heq
        have hsand : l.count (pick l v y) = l.count (ys.foldl (pick l) (pick l v y)) := by omega
        have h4 := h3 hsand
        have h5 := pick_tie_left l v y (by omega)
        exact le_trans h4 h5
      · rcases List.mem_cons.mp hv with rfl | hin
        · -- v is the new head y
          have h1 := count_le_pick_right l a v
          rcases hbest (pick l a v) (Or.inl rfl) with ⟨h2, h3⟩
          refine ⟨Nat.le_trans h1 h2, ?_⟩
          intro heq
          have hsand : l.count (pick l a v) = l.count (ys.foldl (pick l) (pick l a v)) := by omega
          have h4 := h3 hsand
          have h5 := pick_tie_right l a v (by omega)
          exact le_trans h4 h5
        · exact hbest v (Or.inr hin)

/-- `mode()[0]` really is a mode: it occurs in the list, no value occurs more
often, and among the values tied for the highest count it is the smallest in
ascending order — pandas returns the tied modes sorted and the code indexes
the first. -/
theorem modeCode_spec {l : List String} {m : String} (h : modeCode l = some m) :
    m ∈ l ∧ (∀ v ∈ l, l.count v ≤ l.count m) ∧
      ∀ v ∈ l, l.count v = l.count m → m ≤ v := by
  match l with
  | [] => simp [modeCode] at h
  | x :: xs =>
    have hm : m = xs.foldl (pick (x :: xs)) x := by
      simp [modeCode] at h
      exact h.symm
    rcases foldl_pick_spec (x :: xs) xs x with ⟨hmem, hbest⟩
    subst hm
    refine ⟨?_, ?_, ?_⟩
    · rcases hmem with heq | hin
      · rw [heq]; exact List.mem_cons_self x xs
      · exact List.mem_cons_of_mem x hin
    · intro v hv
      exact (hbest v (by rcases List.mem_cons.mp hv with h1 | h1
                         · exact Or.inl h1
                         · exact Or.inr h1)).1
    · intro v hv heq
      exact (hbest v (by rcases List.mem_cons.mp hv with h1 | h1
                         · exact Or.inl h1
                         · exact Or.inr h1)).2 heq

theorem modeCode_isSome {l : List String} (h : l ≠ []) : ∃ m, modeCode l = some m := by
  match l with
  | [] => exact absurd rfl h
  | x :: xs => exact ⟨_, rfl⟩

/-! ### Median -/

theorem medianCode_eq_none_iff {l : List ℚ} : medianCode l = none ↔ l = [] := by
  have hlen : (List.insertionSort (fun a b : ℚ => a ≤ b) l).length = l.length :=
    (List.perm_insertionSort _ l).length_eq
  constructor
  · intro h
    simp only [medianCode] at h
    split_ifs at h with h0 h1
    · rw [hlen] at h0; exact List.length_eq_zero.mp h0
  · intro h
    subst h
    rfl

/-- `median()` returns the middle of a sorted permutation of the non-missing
values, with the two middle values averaged when the count is even. -/
theorem medianCode_spec {l : List ℚ} {m : ℚ} (h : medianCode l = some m) :
    ∃ s : List ℚ, List.Sorted (fun a b : ℚ => a ≤ b) s ∧ s.Perm l ∧
      (s.length % 2 = 1 → m = s.getD (s.length / 2) 0) ∧
      (s.length % 2 = 0 → m = (s.getD (s.length / 2 - 1) 0 + s.getD (s.length / 2) 0) / 2) := by
  simp only [medianCode] at h
  refine ⟨List.insertionSort (fun a b : ℚ => a ≤ b) l,
    List.sorted_insertionSort _ l, List.perm_insertionSort _ l, ?_, ?_⟩
  · intro hodd
    split_ifs at h with h0
    exact ((Option.some.injEq _ _).mp h).symm
  · intro heven
    split_ifs at h with h0 h1
    · omega
    · exact ((Option.some.injEq _ _).mp h).symm

/-! ### Columns under filling -/

theorem fillRow_getD_ne {j k : Nat} {v : Cell} (h : k ≠ j) (r : List Cell) :
    (fillRow j v r).getD k Cell.null = r.getD k Cell.null := by
  unfold fillRow
  split
  · exact getD_set_of_ne r j k v Cell.null h
  · rfl

theorem fillRow_getD_self {j : Nat} {v : Cell} (r : List Cell) (h : j < r.length) :
    (fillRow j v r).getD j Cell.null =
      (if r.getD j Cell.null = Cell.null then v else r.getD j Cell.null) := by
  unfold fillRow
  split
  · exact getD_set_self r j v Cell.null h
  · rfl

theorem colCells_fillColWith_ne {t : Table} {j k : Nat} {v : Cell} (h : k ≠ j) :
    colCells (fillColWith t j v) k = colCells t k := by
  unfold colCells fillColWith
  rw [List.map_map]
  exact List.map_congr_left (fun r _ => fillRow_getD_ne h r)

theorem colCells_fillColWith_self {t : Table} {j : Nat} {v : Cell}
    (hlen : ∀ r ∈ t.rows, j < r.length) :
    colCells (fillColWith t j v) j = fillCells (colCells t j) v := by
  unfold colCells fillColWith fillCells
  rw [List.map_map, List.map_map]
  exact List.map_congr_left (fun r hr => fillRow_getD_self r (hlen r hr))

theorem dtypes_fillColWith (t : Table) (j : Nat) (v : Cell) :
    (fillColWith t j v).dtypes = t.dtypes := rfl

theorem dtypes_dedupTable (t : Table) : (dedupTable t).dtypes = t.dtypes := rfl

theorem fillCells_ne_null {cells : List Cell} {v : Cell} (hv : v ≠ Cell.null) :
    ∀ c ∈ fillCells cells v, c ≠ Cell.null := by
  intro c hc
  rcases List.mem_map.mp hc with ⟨c0, _, rfl⟩
  split
  · exact hv
  · rename_i hne; exact hne

theorem nonNullNum_eq_nil_iff_all_null {dt : Dtype} {cells : List Cell}
    (hdt : dt = Dtype.numeric) (hok : ∀ c ∈ cells, cellOk dt c = true) :
    nonNullNum cells = [] ↔ ∀ c ∈ cells, c = Cell.null := by
  subst hdt
  constructor
  · intro hnil c hc
    match c with
    | Cell.null => rfl
    | Cell.str s => exact absurd (hok _ hc) (by simp [cellOk])
    | Cell.num v =>
      have hmem : v ∈ nonNullNum cells := List.mem_filterMap.mpr ⟨Cell.num v, hc, rfl⟩
      rw [hnil] at hmem
      exact absurd hmem (List.not_mem_nil v)
  · intro hall
    apply List.filterMap_eq_nil_iff.mpr
    intro c hc
    rw [hall c hc]

theorem imputeStep_ok_props {t : Table} {j : Nat} {t2 : Table} (hwf : WF t)
    (hj : j < t.dtypes.length) (h : imputeStep t j = Except.ok t2) :
    WF t2 ∧ t2.dtypes = t.dtypes ∧
      colRel (t.dtypes.getD j Dtype.numeric) (colCells t j) (colCells t2 j) ∧
      ∀ k, k ≠ j → colCells t2 k = colCells t k := by
  have hlen : ∀ r ∈ t.rows, j < r.length := by
    intro r hr
    rw [WF_row_length hwf hr]
    exact hj
  unfold imputeStep at h
  unfold colRel
  by_cases hany : (colCells t j).any (fun x => x = Cell.null) = true
  · rw [if_pos hany] at h ⊢
    rcases hdt : t.dtypes.getD j Dtype.numeric with _ | _
    · -- object column
      rw [hdt] at h
      rcases hmode : modeCode (nonNullStr (colCells t j)) with _ | m
      · rw [hmode] at h; exact absurd h (by simp)
      · rw [hmode] at h
        have ht2 : t2 = fillColWith t j (Cell.str m) := (Except.ok.inj h).symm
        subst ht2
        refine ⟨WF_fillColWith hwf hj (by rw [hdt]; rfl), rfl, ?_, ?_⟩
        · exact ⟨m, rfl, colCells_fillColWith_self hlen⟩
        · intro k hk
          exact colCells_fillColWith_ne hk
    · -- numeric column
      rw [hdt] at h
      rcases hmed : medianCode (nonNullNum (colCells t j)) with _ | m
      · rw [hmed] at h
        have ht2 : t2 = t := (Except.ok.inj h).symm
        subst ht2
        refine ⟨hwf, rfl, Or.inl ⟨medianCode_eq_none_iff.mp hmed, rfl⟩, fun k _ => rfl⟩
      · rw [hmed] at h
        have ht2 : t2 = fillColWith t j (Cell.num m) := (Except.ok.inj h).symm
        subst ht2
        refine ⟨WF_fillColWith hwf hj (by rw [hdt]; rfl), rfl, ?_, ?_⟩
        · exact Or.inr ⟨m, rfl, colCells_fillColWith_self hlen⟩
        · intro k hk
          exact colCells_fillColWith_ne hk
  · rw [if_neg hany] at h
    rw [if_neg hany]
    have ht2 : t2 = t := (Except.ok.inj h).symm
    subst ht2
    exact ⟨hwf, rfl, rfl, fun k _ => rfl⟩

theorem imputeGo_ok_props :
    ∀ (js : List Nat) (t t2 : Table), WF t → js.Nodup →
      (∀ j ∈ js, j < t.dtypes.length) → (imputeGo t js).1 = Except.ok t2 →
      WF t2 ∧ t2.dtypes = t.dtypes ∧
        (∀ k, k ∉ js → colCells t2 k = colCells t k) ∧
        ∀ j ∈ js, colRel (t.dtypes.getD j Dtype.numeric) (colCells t j) (colCells t2 j) := by
  intro js
  induction js with
  | nil =>
    intro t t2 hwf _ _ h
    have ht2 : t2 = t := (Except.ok.inj (show Except.ok t = Except.ok t2 from h)).symm
    subst ht2
    exact ⟨hwf, rfl, fun _ _ => rfl, by simp⟩
  | cons j js ih =>
    intro t t2 hwf hnd hbound h
    rcases List.nodup_cons.mp hnd with ⟨hj_not, hnd'⟩
    have hj : j < t.dtypes.length := hbound j (List.mem_cons_self j js)
    unfold imputeGo at h
    rcases hstep : imputeStep t j with e | tmid
    · rw [hstep] at h; exact absurd h (by simp)
    · rw [hstep] at h
      rcases imputeStep_ok_props hwf hj hstep with ⟨hwf1, hdts1, hrel1, hframe1⟩
      have hbound' : ∀ j' ∈ js, j' < tmid.dtypes.length := by
        intro j' hj'
        rw [hdts1]
        exact hbound j' (List.mem_cons_of_mem j hj')
      rcases ih tmid t2 hwf1 hnd' hbound' h with ⟨hwf2, hdts2, hframe2, hrel2⟩
      refine ⟨hwf2, hdts2.trans hdts1, ?_, ?_⟩
      · intro k hk
        have hk1 : k ≠ j := fun heq => hk (heq ▸ List.mem_cons_self j js)
        have hk2 : k ∉ js := fun hin => hk (List.mem_cons_of_mem j hin)
        rw [hframe2 k hk2, hframe1 k hk1]
      · intro j' hj'
        rcases List.mem_cons.mp hj' with rfl | hin
        · rw [hframe2 j' hj_not]
          exact hrel1
        · have hne : j' ≠ j := fun heq => hj_not (heq ▸ hin)
          have := hrel2 j' hin
          rw [hdts1, hframe1 j' hne] at this
          exact this

/-- On a successful clean, the output is well-formed, keeps the dtypes, and
every column stands in `colRel` to the corresponding column of the
deduplicated input. -/
theorem cleanTable_ok_props {t t2 : Table} (hwf : WF t) (h : cleanTable t = Except.ok t2) :
    WF t2 ∧ t2.dtypes = t.dtypes ∧
      ∀ j, j < t.dtypes.length →
        colRel (t.dtypes.getD j Dtype.numeric) (colCells (dedupTable t) j) (colCells t2 j) := by
  unfold cleanTable cleanTableFull at h
  have hwfd : WF (dedupTable t) := WF_dedupTable hwf
  have hprops := imputeGo_ok_props (List.range (dedupTable t).dtypes.length) (dedupTable t) t2
    hwfd (List.nodup_range _) (fun j hj => List.mem_range.mp hj) h
  rcases hprops with ⟨hwf2, hdts2, _, hrel⟩
  refine ⟨hwf2, hdts2, ?_⟩
  intro j hj
  exact hrel j (List.mem_range.mpr hj)

/-- What a column looks like after a successful clean: either free of missing
values, or a numeric column that is entirely missing. -/
theorem colRel_status {dt : Dtype} {cells newCells : List Cell}
    (hok : ∀ c ∈ cells, cellOk dt c = true) (hrel : colRel dt cells newCells) :
    (∀ c ∈ newCells, c ≠ Cell.null) ∨ (dt = Dtype.numeric ∧ ∀ c ∈ newCells, c = Cell.null) := by
  unfold colRel at hrel
  by_cases hany : cells.any (fun x => x = Cell.null) = true
  · rw [if_pos hany] at hrel
    match dt with
    | Dtype.obj =>
      rcases hrel with ⟨m, _, rfl⟩
      exact Or.inl (fillCells_ne_null (by simp))
    | Dtype.numeric =>
      rcases hrel with ⟨hnil, rfl⟩ | ⟨m, _, rfl⟩
      · exact Or.inr ⟨rfl, (nonNullNum_eq_nil_iff_all_null rfl hok).mp hnil⟩
      · exact Or.inl (fillCells_ne_null (by simp))
  · rw [if_neg hany] at hrel
    subst hrel
    left
    intro c hc hcn
    apply hany
    rw [List.any_eq_true]
    exact ⟨c, hc, by simp [hcn]⟩

theorem imputeStep_id_of_status {t : Table} {j : Nat}
    (h : (∀ c ∈ colCells t j, c ≠ Cell.null) ∨
      (t.dtypes.getD j Dtype.numeric = Dtype.numeric ∧ ∀ c ∈ colCells t j, c = Cell.null)) :
    imputeStep t j = Except.ok t := by
  unfold imputeStep
  by_cases hany : (colCells t j).any (fun x => x = Cell.null) = true
  · rw [if_pos hany]
    rcases h with hno | ⟨hdt, hall⟩
    · exfalso
      rw [List.any_eq_true] at hany
      rcases hany with ⟨c, hc, hcn⟩
      simp at hcn
      exact hno c hc hcn
    · rw [hdt]
      have hnil : nonNullNum (colCells t j) = [] := by
        apply List.filterMap_eq_nil_iff.mpr
        intro c hc
        rw [hall c hc]
      rw [hnil]
      rfl
  · rw [if_neg hany]

theorem imputeGo_id {t : Table} :
    ∀ (js : List Nat), (∀ j ∈ js, imputeStep t j = Except.ok t) →
      imputeGo t js = (Except.ok t, t) := by
  intro js
  induction js with
  | nil => intro _; rfl
  | cons j js ih =>
    intro h
    unfold imputeGo
    rw [h j (List.mem_cons_self j js)]
    exact ih (fun j' hj' => h j' (List.mem_cons_of_mem j hj'))

/-! ### Context dictionary -/

theorem ctxGet_ctxSet_self : ∀ (c : Context) (k : String) (v : CtxVal),
    ctxGet (ctxSet c k v) k = some v := by
  intro c
  induction c with
  | nil =>
    intro k v
    simp [ctxSet, ctxGet]
  | cons p rest ih =>
    intro k v
    rcases p with ⟨k0, w⟩
    unfold ctxSet
    by_cases hk : k0 = k
    · rw [if_pos hk]
      unfold ctxGet
      rw [if_pos hk]
    · rw [if_neg hk]
      unfold ctxGet
      rw [if_neg hk]
      exact ih k v

theorem ctxGet_ctxSet_of_ne : ∀ (c : Context) (k key : String) (v : CtxVal),
    key ≠ k → ctxGet (ctxSet c k v) key = ctxGet c key := by
  intro c
  induction c with
  | nil =>
    intro k key v h
    unfold ctxSet ctxGet
    rw [if_neg (fun heq => h heq.symm)]
    rfl
  | cons p rest ih =>
    intro k key v h
    rcases p with ⟨k0, w⟩
    unfold ctxSet
    by_cases hk : k0 = k
    · rw [if_pos hk]
      unfold ctxGet
      by_cases hkey : k0 = key
      · exact absurd (hkey.symm.trans hk) h
      · rw [if_neg hkey, if_neg hkey]
    · rw [if_neg hk]
      unfold ctxGet
      by_cases hkey : k0 = key
      · rw [if_pos hkey, if_pos hkey]
      · rw [if_neg hkey, if_neg hkey]
        exact ih k key v h

/-! ### Handler body case equations -/

theorem cleanWork_none {c : Context} (h : ctxGet c "df" = none) :
    CleanDataHandler.work c = (Except.error Err.missingInputClean, c) := by
  unfold CleanDataHandler.work
  simp only [h]

theorem cleanWork_vnull {c : Context} (h : ctxGet c "df" = some CtxVal.vnull) :
    CleanDataHandler.work c = (Except.error Err.missingInputClean, c) := by
  unfold CleanDataHandler.work
  simp only [h]

theorem cleanWork_vother {c : Context} {s : String}
    (h : ctxGet c "df" = some (CtxVal.vother s)) :
    CleanDataHandler.work c = (Except.error Err.notATable, c) := by
  unfold CleanDataHandler.work
  simp only [h]

theorem cleanWork_vtable_ok {c : Context} {t t2 : Table}
    (hget : ctxGet c "df" = some (CtxVal.vtable t)) (hok : cleanTable t = Except.ok t2) :
    CleanDataHandler.work c =
      (Except.ok (ctxSet c "df" (CtxVal.vtable t2)), ctxSet c "df" (CtxVal.vtable t2)) := by
  unfold CleanDataHandler.work
  simp only [hget]
  unfold cleanTable at hok
  rcases hp : cleanTableFull t with ⟨r, tmid⟩
  rw [hp] at hok
  have hr : r = Except.ok t2 := hok
  subst hr
  rfl

theorem cleanWork_vtable_err {c : Context} {t : Table} {j : Nat}
    (hget : ctxGet c "df" = some (CtxVal.vtable t)) (herr : cleanTable t = Except.error j) :
    CleanDataHandler.work c =
      (Except.error (Err.emptyMode j),
        ctxSet c "df" (CtxVal.vtable (cleanTableFull t).2)) := by
  unfold CleanDataHandler.work
  simp only [hget]
  unfold cleanTable at herr
  rcases hp : cleanTableFull t with ⟨r, tmid⟩
  rw [hp] at herr
  have hr : r = Except.error j := herr
  subst hr
  rfl

theorem sweetvizWork_none {d : String} {c : Context} (h : ctxGet c "df" = none) :
    SweetvizHandler.work d c = (Except.error Err.missingInputReport, c, []) := by
  unfold SweetvizHandler.work
  simp only [h]

theorem sweetvizWork_vnull {d : String} {c : Context}
    (h : ctxGet c "df" = some CtxVal.vnull) :
    SweetvizHandler.work d c = (Except.error Err.missingInputReport, c, []) := by
  unfold SweetvizHandler.work
  simp only [h]

theorem sweetvizWork_vother {d : String} {c : Context} {s : String}
    (h : ctxGet c "df" = some (CtxVal.vother s)) :
    SweetvizHandler.work d c = (Except.error Err.notATable, c, []) := by
  unfold SweetvizHandler.work
  simp only [h]

theorem sweetvizWork_vtable {d : String} {c : Context} {t : Table}
    (h : ctxGet c "df" = some (CtxVal.vtable t)) :
    SweetvizHandler.work d c =
      (Except.ok c, c, [IoEvent.writeReport (joinPath d "sweetviz_report.html")]) := by
  unfold SweetvizHandler.work
  simp only [h]

/-! ### Claim theorems -/

/-- Claim C8: for the numeric column `[1,2,3,null]` the clean stage fills the
null with the median `2`, and for `[1,2,3,4,null]` with the interpolated
median `5/2`. -/
theorem c8_median_fill_values :
    cleanTable tableMedianOdd = Except.ok tableMedianOddOut ∧
    cleanTable tableMedianEven = Except.ok tableMedianEvenOut := by
  constructor
  · rfl
  · have h : ((2 : ℚ) + 3) / 2 = 5 / 2 := by norm_num
    show Except.ok (Table.mk [Dtype.numeric]
      [[Cell.num 1], [Cell.num 2], [Cell.num 3], [Cell.num 4],
        [Cell.num (((2 : ℚ) + 3) / 2)]]) = Except.ok tableMedianEvenOut
    simp only [h]
    rfl

/-- Claim C1 counterexample: a successful clean can leave both duplicate rows
(imputation makes rows `[1, null, null]` and `[1, 5, null]` identical) and
missing values (the entirely-null numeric column is untouched because
`fillna(NaN)` is a no-op), so "zero duplicate rows and zero missing values"
fails as stated. -/
theorem c1_counterexample :
    cleanTable tableCleanCex = Except.ok tableCleanCexOut ∧
    ¬ tableCleanCexOut.rows.Nodup ∧
    Cell.null ∈ colCells tableCleanCexOut 2 :=
  ⟨rfl, by decide, by decide⟩

/-- Claim C1 (amended): after a successful clean of a well-formed table, the
intermediate table produced by the deduplication step has no duplicate rows,
and every column of the output that still contains at least one non-missing
value contains no missing value at all.  (Imputation may afterwards
reintroduce exact duplicate rows, and an entirely-null numeric column remains
entirely null.) -/
theorem c1_clean_dedup_and_no_missing (t t2 : Table) (hwf : WF t)
    (h : cleanTable t = Except.ok t2) :
    (dedupTable t).rows.Nodup ∧
    ∀ j, j < t2.dtypes.length →
      (∃ c ∈ colCells t2 j, c ≠ Cell.null) → ∀ c ∈ colCells t2 j, c ≠ Cell.null := by
  rcases cleanTable_ok_props hwf h with ⟨hwf2, hdts2, hrel⟩
  refine ⟨dedupFirst_nodup _, ?_⟩
  intro j hj hex
  have hj' : j < t.dtypes.length := hdts2 ▸ hj
  have hok := colCells_cellOk (WF_dedupTable hwf) (j := j) hj'
  have hstatus := colRel_status hok (hrel j hj')
  rcases hstatus with hno | ⟨_, hall⟩
  · exact hno
  · rcases hex with ⟨c, hc, hcn⟩
    exact absurd (hall c hc) hcn

/-- Witness for C1 at a concrete table. -/
theorem c1_witness :
    WF tableC1W ∧ cleanTable tableC1W = Except.ok tableC1WOut ∧
    ((dedupTable tableC1W).rows.Nodup ∧
      ∀ j, j < tableC1WOut.dtypes.length →
        (∃ c ∈ colCells tableC1WOut j, c ≠ Cell.null) →
        ∀ c ∈ colCells tableC1WOut j, c ≠ Cell.null) :=
  ⟨by decide, rfl, c1_clean_dedup_and_no_missing tableC1W tableC1WOut (by decide) rfl⟩

/-- Claim C7 counterexample: cleaning is not idempotent — the clean of
`tableIdem` has two identical rows, and cleaning that output removes one of
them, producing a different table. -/
theorem c7_counterexample :
    cleanTable tableIdem = Except.ok tableIdemOnce ∧
    cleanTable tableIdemOnce = Except.ok tableIdemTwice ∧
    tableIdemTwice ≠ tableIdemOnce :=
  ⟨rfl, rfl, by decide⟩

/-- Claim C7 (amended): cleaning is idempotent on every output that has no
duplicate rows: if a clean run succeeds and its result happens to be free of
duplicate rows, cleaning the result returns it unchanged.  In general the
imputation step can introduce new duplicate rows, and the second run removes
them, so idempotence fails as stated. -/
theorem c7_clean_idempotent_of_nodup (t t2 : Table) (hwf : WF t)
    (h : cleanTable t = Except.ok t2) (hnd : t2.rows.Nodup) :
    cleanTable t2 = Except.ok t2 := by
  rcases cleanTable_ok_props hwf h with ⟨hwf2, hdts2, hrel⟩
  have hded : dedupTable t2 = t2 := by
    unfold dedupTable
    rw [dedupFirst_eq_self hnd]
  have hid : ∀ j ∈ List.range t2.dtypes.length, imputeStep t2 j = Except.ok t2 := by
    intro j hj
    have hjlen : j < t2.dtypes.length := List.mem_range.mp hj
    have hj' : j < t.dtypes.length := hdts2 ▸ hjlen
    have hok := colCells_cellOk (WF_dedupTable hwf) (j := j) hj'
    have hstatus := colRel_status hok (hrel j hj')
    apply imputeStep_id_of_status
    rcases hstatus with hno | ⟨hdt, hall⟩
    · exact Or.inl hno
    · refine Or.inr ⟨?_, hall⟩
      rw [hdts2]
      exact hdt
  unfold cleanTable cleanTableFull
  rw [hded, imputeGo_id (List.range t2.dtypes.length) hid]

/-- Witness for C7 at a concrete table that is a fixed point of cleaning. -/
theorem c7_witness :
    WF tableC7W ∧ tableC7W.rows.Nodup ∧ cleanTable tableC7W = Except.ok tableC7W :=
  ⟨by decide, by decide,
    c7_clean_idempotent_of_nodup tableC7W tableC7W (by decide) rfl (by decide)⟩

/-- Claim C2 counterexample: in the deduplicated tie column the values appear
in the order `b, b, a, a`, so the first-encountered tied mode is `"b"`, but
the clean stage fills the null with `"a"` — `Series.mode()` returns the tied
modes sorted ascending and the code takes element `[0]`, so the tie-break is
not "first-encountered". -/
theorem c2_counterexample :
    modeFirstEncountered (nonNullStr (colCells (dedupTable tableModeTie) 0)) = some "b" ∧
    cleanTable tableModeTie = Except.ok tableModeTieOut ∧
    colCells tableModeTieOut 0 ≠
      fillCells (colCells (dedupTable tableModeTie) 0) (Cell.str "b") :=
  ⟨rfl, rfl, by decide⟩

/-- Claim C2 (amended): on a successful clean of a well-formed table, every
object column of the deduplicated table that contains missing entries is
filled with its mode — a most frequent non-missing value, with ties broken by
the smallest value in ascending order (not the first-encountered one) — and
every numeric column with missing entries is filled with the median of its
non-missing values (middle of a sorted permutation, averaging the two middle
values for even counts), or left unchanged when it has no non-missing value
at all. -/
theorem c2_fill_mode_median (t t2 : Table) (j : Nat) (hwf : WF t)
    (h : cleanTable t = Except.ok t2) (hj : j < t.dtypes.length)
    (hnull : (colCells (dedupTable t) j).any (fun x => x = Cell.null) = true) :
    (t.dtypes.getD j Dtype.numeric = Dtype.obj →
      ∃ m, modeCode (nonNullStr (colCells (dedupTable t) j)) = some m ∧
        m ∈ nonNullStr (colCells (dedupTable t) j) ∧
        (∀ v ∈ nonNullStr (colCells (dedupTable t) j),
          (nonNullStr (colCells (dedupTable t) j)).count v ≤
            (nonNullStr (colCells (dedupTable t) j)).count m) ∧
        (∀ v ∈ nonNullStr (colCells (dedupTable t) j),
          (nonNullStr (colCells (dedupTable t) j)).count v =
            (nonNullStr (colCells (dedupTable t) j)).count m → m ≤ v) ∧
        colCells t2 j = fillCells (colCells (dedupTable t) j) (Cell.str m)) ∧
    (t.dtypes.getD j Dtype.numeric = Dtype.numeric →
      (nonNullNum (colCells (dedupTable t) j) = [] ∧
        colCells t2 j = colCells (dedupTable t) j) ∨
      ∃ m, medianCode (nonNullNum (colCells (dedupTable t) j)) = some m ∧
        (∃ s : List ℚ, List.Sorted (fun a b : ℚ => a ≤ b) s ∧
          s.Perm (nonNullNum (colCells (dedupTable t) j)) ∧
          (s.length % 2 = 1 → m = s.getD (s.length / 2) 0) ∧
          (s.length % 2 = 0 →
            m = (s.getD (s.length / 2 - 1) 0 + s.getD (s.length / 2) 0) / 2)) ∧
        colCells t2 j = fillCells (colCells (dedupTable t) j) (Cell.num m)) := by
  rcases cleanTable_ok_props hwf h with ⟨hwf2, hdts2, hrel⟩
  have hrelj := hrel j hj
  unfold colRel at hrelj
  rw [if_pos hnull] at hrelj
  constructor
  · intro hdt
    rw [hdt] at hrelj
    rcases hrelj with ⟨m, hmode, hfill⟩
    rcases modeCode_spec hmode with ⟨hmem, hmax, hmin⟩
    exact ⟨m, hmode, hmem, hmax, hmin, hfill⟩
  · intro hdt
    rw [hdt] at hrelj
    rcases hrelj with ⟨hnil, hfill⟩ | ⟨m, hmed, hfill⟩
    · exact Or.inl ⟨hnil, hfill⟩
    · exact Or.inr ⟨m, hmed, medianCode_spec hmed, hfill⟩

/-- Witness for C2 at a concrete object column with a tie. -/
theorem c2_witness :
    ∃ m, modeCode (nonNullStr (colCells (dedupTable tableC2W) 0)) = some m ∧
      m ∈ nonNullStr (colCells (dedupTable tableC2W) 0) ∧
      (∀ v ∈ nonNullStr (colCells (dedupTable tableC2W) 0),
        (nonNullStr (colCells (dedupTable tableC2W) 0)).count v ≤
          (nonNullStr (colCells (dedupTable tableC2W) 0)).count m) ∧
      (∀ v ∈ nonNullStr (colCells (dedupTable tableC2W) 0),
        (nonNullStr (colCells (dedupTable tableC2W) 0)).count v =
          (nonNullStr (colCells (dedupTable tableC2W) 0)).count m → m ≤ v) ∧
      colCells tableC2WOut 0 = fillCells (colCells (dedupTable tableC2W) 0) (Cell.str m) :=
  (c2_fill_mode_median tableC2W tableC2WOut 0 (by decide) rfl (by decide) (by decide)).1 rfl

/-- Claim C3: after a stage's own work succeeds, `handle` returns the result
of invoking the successor chain's `handle` on the produced context when a
successor exists, and returns that context unchanged when no successor
exists. -/
theorem c3_handler_forwarding (fs : FS) (s : Stage) (rest : List Stage)
    (c c1 c2 : Context) (tr : List IoEvent)
    (h : stageWork fs s c = (Except.ok c2, c1, tr)) :
    Handler.handle fs [s] c = (Except.ok c2, c2, tr) ∧
    Handler.handle fs (s :: rest) c =
      ((Handler.handle fs rest c2).1, (Handler.handle fs rest c2).2.1,
        tr ++ (Handler.handle fs rest c2).2.2) := by
  constructor
  · show (match stageWork fs s c with
      | (Except.ok c2, _, tr) =>
        match Handler.handle fs [] c2 with
        | (r, c3, tr2) => (r, c3, tr ++ tr2)
      | (Except.error e, c1, tr) => (Except.error e, c1, tr)) = (Except.ok c2, c2, tr)
    rw [h]
    show (Except.ok c2, c2, tr ++ ([] : List IoEvent)) = (Except.ok c2, c2, tr)
    rw [List.append_nil]
  · show (match stageWork fs s c with
      | (Except.ok c2, _, tr) =>
        match Handler.handle fs rest c2 with
        | (r, c3, tr2) => (r, c3, tr ++ tr2)
      | (Except.error e, c1, tr) => (Except.error e, c1, tr)) = _
    rw [h]

/-- Witness for C3: the clean stage on a context already holding a table,
with and without a successor. -/
theorem c3_witness :
    stageWork fsAll Stage.cleanData ctxDf = (Except.ok ctxDf, ctxDf, []) ∧
    Handler.handle fsAll [Stage.cleanData] ctxDf = (Except.ok ctxDf, ctxDf, []) :=
  ⟨rfl, (c3_handler_forwarding fsAll Stage.cleanData [] ctxDf ctxDf ctxDf [] rfl).1⟩

/-- Claim C4: CleanStage and ReportStage raise their "missing input" error
exactly when the `"df"` key is absent from the context or bound to `None`;
with the key present and non-null, neither stage raises that error (other
errors are still possible, e.g. an all-null object column). -/
theorem c4_missing_input_iff (c : Context) (d : String) :
    ((ctxGet c "df" = none ∨ ctxGet c "df" = some CtxVal.vnull) ↔
      (CleanDataHandler.work c).1 = Except.error Err.missingInputClean) ∧
    ((ctxGet c "df" = none ∨ ctxGet c "df" = some CtxVal.vnull) ↔
      (SweetvizHandler.work d c).1 = Except.error Err.missingInputReport) := by
  constructor
  · constructor
    · intro h
      rcases h with h | h
      · rw [cleanWork_none h]
      · rw [cleanWork_vnull h]
    · intro h
      rcases hget : ctxGet c "df" with _ | v
      · exact Or.inl rfl
      · match v with
        | CtxVal.vnull => exact Or.inr rfl
        | CtxVal.vother s =>
          rw [cleanWork_vother hget] at h
          exact absurd h (by simp)
        | CtxVal.vtable t =>
          exfalso
          rcases hclean : cleanTable t with j | t2
          · rw [cleanWork_vtable_err hget hclean] at h
            simp at h
          · rw [cleanWork_vtable_ok hget hclean] at h
            simp at h
  · constructor
    · intro h
      rcases h with h | h
      · rw [sweetvizWork_none h]
      · rw [sweetvizWork_vnull h]
    · intro h
      rcases hget : ctxGet c "df" with _ | v
      · exact Or.inl rfl
      · match v with
        | CtxVal.vnull => exact Or.inr rfl
        | CtxVal.vother s =>
          rw [sweetvizWork_vother hget] at h
          exact absurd h (by simp)
        | CtxVal.vtable t =>
          rw [sweetvizWork_vtable hget] at h
          exact absurd h (by simp)

/-- Witness for C4 at the empty context. -/
theorem c4_witness :
    ((ctxGet ([] : Context) "df" = none ∨ ctxGet ([] : Context) "df" = some CtxVal.vnull) ↔
      (CleanDataHandler.work ([] : Context)).1 = Except.error Err.missingInputClean) ∧
    ((ctxGet ([] : Context) "df" = none ∨ ctxGet ([] : Context) "df" = some CtxVal.vnull) ↔
      (SweetvizHandler.work "out" ([] : Context)).1 = Except.error Err.missingInputReport) :=
  c4_missing_input_iff [] "out"

/-- Claim C5: LoadStage raises its "file not found" error, naming the file
and the directory, exactly when the composed path does not exist; on success
it stores the parsed table under `"df"`, records exactly one read of that
path, and the context then holds a non-null table for downstream stages. -/
theorem c5_load_not_found_iff (fs : FS) (dir name : String) (c : Context) :
    (fs.pathExists (joinPath dir name) = false ↔
      (OpenCsvHandler.work fs dir name c).1 =
        Except.error (Err.fileNotFound name dir)) ∧
    (fs.pathExists (joinPath dir name) = true →
      OpenCsvHandler.work fs dir name c =
        (Except.ok (ctxSet c "df" (CtxVal.vtable (fs.readCsv (joinPath dir name)))),
          ctxSet c "df" (CtxVal.vtable (fs.readCsv (joinPath dir name))),
          [IoEvent.readCsv (joinPath dir name)]) ∧
      ctxGet (ctxSet c "df" (CtxVal.vtable (fs.readCsv (joinPath dir name)))) "df" =
        some (CtxVal.vtable (fs.readCsv (joinPath dir name)))) := by
  constructor
  · constructor
    · intro h
      simp [OpenCsvHandler.work, h]
    · intro h
      by_cases hex : fs.pathExists (joinPath dir name) = true
      · simp [OpenCsvHandler.work, hex] at h
      · exact Bool.eq_false_iff.mpr hex
  · intro hex
    exact ⟨by simp [OpenCsvHandler.work, hex], ctxGet_ctxSet_self c "df" _⟩

/-- Witness for C5 on a file system where the path exists. -/
theorem c5_witness :
    OpenCsvHandler.work fsAll "data" "d.csv" [] =
      (Except.ok (ctxSet [] "df" (CtxVal.vtable (fsAll.readCsv (joinPath "data" "d.csv")))),
        ctxSet [] "df" (CtxVal.vtable (fsAll.readCsv (joinPath "data" "d.csv"))),
        [IoEvent.readCsv (joinPath "data" "d.csv")]) ∧
    ctxGet (ctxSet [] "df" (CtxVal.vtable (fsAll.readCsv (joinPath "data" "d.csv")))) "df" =
      some (CtxVal.vtable (fsAll.readCsv (joinPath "data" "d.csv"))) :=
  (c5_load_not_found_iff fsAll "data" "d.csv" []).2 rfl

/-- Claim C6: `execute()` on a runner whose chain was never built fails with
the chain-not-built error and performs no I/O (empty trace); `build_chain`
installs the Load → Clean → Report chain; and on a built runner `execute()`
runs the head handler on a freshly created empty context. -/
theorem c6_execute (fs : FS) (cfg : Config) :
    EDAFlow.execute fs (EDAFlow.mk cfg none) = (Except.error Err.chainNotBuilt, []) ∧
    (∀ e : EDAFlow, (EDAFlow.build_chain e).chain =
      some [Stage.openCsv e.config.datasets_dir e.config.file_name, Stage.cleanData,
        Stage.sweetviz e.config.output_dir]) ∧
    ∀ ch : List Stage,
      EDAFlow.execute fs (EDAFlow.mk cfg (some ch)) =
        ((Handler.handle fs ch ([] : Context)).1,
          (Handler.handle fs ch ([] : Context)).2.2) := by
  refine ⟨rfl, fun e => rfl, fun ch => ?_⟩
  show (match Handler.handle fs ch ([] : Context) with
    | (r, _, tr) => (r, tr)) = _
  rcases heq : Handler.handle fs ch ([] : Context) with ⟨r, c3, tr⟩
  rfl

/-- Claim C9: CleanStage's own work changes at most the `"df"` binding of the
context: every other key reads the same before and after, in the post-state
of the mutable dictionary and in the returned context alike. -/
theorem c9_clean_frame (c : Context) (k : String) (hk : k ≠ "df") :
    ctxGet (CleanDataHandler.work c).2 k = ctxGet c k ∧
    ∀ c2, (CleanDataHandler.work c).1 = Except.ok c2 → ctxGet c2 k = ctxGet c k := by
  rcases hget : ctxGet c "df" with _ | v
  · rw [cleanWork_none hget]
    exact ⟨rfl, fun c2 h => by simp at h⟩
  · match v with
    | CtxVal.vnull =>
      rw [cleanWork_vnull hget]
      exact ⟨rfl, fun c2 h => by simp at h⟩
    | CtxVal.vother s =>
      rw [cleanWork_vother hget]
      exact ⟨rfl, fun c2 h => by simp at h⟩
    | CtxVal.vtable t =>
      rcases hclean : cleanTable t with j | t2
      · rw [cleanWork_vtable_err hget hclean]
        exact ⟨ctxGet_ctxSet_of_ne c "df" k _ hk, fun c2 h => by simp at h⟩
      · rw [cleanWork_vtable_ok hget hclean]
        refine ⟨ctxGet_ctxSet_of_ne c "df" k _ hk, fun c2 h => ?_⟩
        have hc2 : c2 = ctxSet c "df" (CtxVal.vtable t2) :=
          (Except.ok.inj (show Except.ok (ctxSet c "df" (CtxVal.vtable t2)) =
            Except.ok c2 from h)).symm
        subst hc2
        exact ctxGet_ctxSet_of_ne c "df" k _ hk

/-- Witness for C9 at a context with one unrelated binding. -/
theorem c9_witness :
    ctxGet (CleanDataHandler.work ctxOther).2 "x" = ctxGet ctxOther "x" :=
  (c9_clean_frame ctxOther "x" (by decide)).1

/-- Claim C10: when CleanStage or ReportStage raises its "missing input"
error (key absent or bound to `None`), the context is returned exactly as it
was: the check precedes every mutation. -/
theorem c10_missing_input_no_mutation (c : Context) (d : String)
    (h : ctxGet c "df" = none ∨ ctxGet c "df" = some CtxVal.vnull) :
    CleanDataHandler.work c = (Except.error Err.missingInputClean, c) ∧
    SweetvizHandler.work d c = (Except.error Err.missingInputReport, c, []) := by
  rcases h with h | h <;>
    exact ⟨by simp [CleanDataHandler.work, h], by simp [SweetvizHandler.work, h]⟩

/-- Witness for C10 at the empty context. -/
theorem c10_witness :
    (ctxGet ([] : Context) "df" = none ∨ ctxGet ([] : Context) "df" = some CtxVal.vnull) ∧
    CleanDataHandler.work ([] : Context) = (Except.error Err.missingInputClean, []) ∧
    SweetvizHandler.work "out" ([] : Context) =
      (Except.error Err.missingInputReport, [], []) :=
  ⟨Or.inl rfl,
    (c10_missing_input_no_mutation [] "out" (Or.inl rfl)).1,
    (c10_missing_input_no_mutation [] "out" (Or.inl rfl)).2⟩
